import Mathlib

/-!
# Verification of the lesson-finder bot core (src/index.js)

Shallow embedding of the indexing-and-retrieval engine of the bot:
  * title normalization (`normalizeTitle`, index.js:116),
  * the SQLite-backed store (`videos` table with its `UNIQUE(chat_id, title)`
    constraint, `upsertVideo`, `exactVideo`, `likeVideos`, index.js:21-71),
  * the `/find` resolver (index.js:281-402),
  * the per-chat delivery queue (`queueForChat`, index.js:133-145) and the
    rate-limit retry wrapper (`tgCall`, index.js:148-168),
  * the media indexer and the caption-edit re-indexer (index.js:223-278),
  * the pagination callback handler (index.js:408-466, 536-543).

Machine integers of the source (timestamps, message ids, offsets) are modelled
as `Nat`; JavaScript strings as Lean `String` (proofs work on `List Char`).
SQLite's `LOWER` lowercases ASCII letters only; the extra JavaScript
`toLowerCase()` the caller applies to the query is modelled by the same ASCII
lowering (exact for ASCII text, which is all the claims exercise).
-/

namespace LessonFinder

/-! ## Characters and strings -/

/-- The character class of JavaScript's `\s` (and of `String.prototype.trim`):
`[\t\n\v\f\r    -     　﻿]`. -/
def isWS (c : Char) : Bool :=
  c.toNat = 9 || c.toNat = 10 || c.toNat = 11 || c.toNat = 12 || c.toNat = 13 ||
  c.toNat = 32 || c.toNat = 0xa0 || c.toNat = 0x1680 ||
  (0x2000 ≤ c.toNat && c.toNat ≤ 0x200a) ||
  c.toNat = 0x2028 || c.toNat = 0x2029 || c.toNat = 0x202f ||
  c.toNat = 0x205f || c.toNat = 0x3000 || c.toNat = 0xfeff

/-- `String.prototype.trim`: drop `\s` characters from both ends. -/
def trimWS (l : List Char) : List Char :=
  ((l.dropWhile isWS).reverse.dropWhile isWS).reverse

/-- `.replace(/\s+/g, ' ')`: every maximal run of `\s` characters becomes a
single space. -/
def collapseWS : List Char → List Char
  | [] => []
  | [a] => if isWS a then [' '] else [a]
  | a :: b :: rest =>
    if isWS a then
      if isWS b then collapseWS (b :: rest)
      else ' ' :: collapseWS (b :: rest)
    else a :: collapseWS (b :: rest)

/-- `normalizeTitle = s => (s || '').trim().replace(/\s+/g, ' ')`
(index.js:116).  The `Option` argument models a possibly-`undefined`
JavaScript value (`s || ''` turns `undefined` into `''`). -/
def normalizeTitle (s : Option String) : String :=
  match s with
  | none => ""
  | some s => String.mk (collapseWS (trimWS s.data))

/-- `normalizeTitle` on a present string. -/
def normStr (s : String) : String := normalizeTitle (some s)

/-! ## ASCII lowering (SQLite `LOWER`) -/

/-- SQLite's `LOWER`: ASCII-only lowercasing. -/
def asciiLowerChar (c : Char) : Char :=
  if 65 ≤ c.toNat ∧ c.toNat ≤ 90 then Char.ofNat (c.toNat + 32) else c

/-- `LOWER` applied to a whole string. -/
def lowerStr (s : String) : String := String.mk (s.data.map asciiLowerChar)

/-! ## Shape of collapsed text -/

/-- In normalized output a whitespace character may only be a plain space. -/
def wsOk (c : Char) : Bool := !(isWS c) || c == ' '

/-- Text is collapsed when every whitespace character is a plain space and no
two adjacent characters are both whitespace. -/
def collapsed : List Char → Bool
  | [] => true
  | [a] => wsOk a
  | a :: b :: rest => wsOk a && !(isWS a && isWS b) && collapsed (b :: rest)

lemma isWS_space : isWS ' ' = true := by decide

lemma collapseWS_eq_self : ∀ l : List Char, collapsed l = true → collapseWS l = l := by
  intro l
  induction l with
  | nil => intro _; rfl
  | cons a t IH =>
    cases t with
    | nil =>
      intro h
      simp only [collapsed, wsOk, Bool.or_eq_true, Bool.not_eq_true', beq_iff_eq] at h
      rcases h with h | h
      · simp [collapseWS, h]
      · subst h; simp [collapseWS, isWS_space]
    | cons b rest =>
      intro h
      simp only [collapsed, Bool.and_eq_true] at h
      obtain ⟨⟨hok, hadj⟩, hrest⟩ := h
      have IH' := IH hrest
      by_cases ha : isWS a = true
      · have ha' : a = ' ' := by
          simp only [wsOk, Bool.or_eq_true, Bool.not_eq_true', beq_iff_eq] at hok
          rcases hok with h | h
          · rw [h] at ha; cases ha
          · exact h
        have hb : isWS b = false := by
          simp only [Bool.not_eq_true', Bool.and_eq_false_iff] at hadj
          rcases hadj with h | h
          · rw [h] at ha; cases ha
          · exact h
        rw [ha'] at ha ⊢
        simp [collapseWS, ha, hb, IH']
      · have ha' : isWS a = false := by simpa using ha
        simp [collapseWS, ha', IH']

lemma collapseWS_head :
    ∀ (a : Char) (l : List Char),
      ∃ t, collapseWS (a :: l) = (if isWS a then ' ' else a) :: t := by
  intro a l
  induction l generalizing a with
  | nil =>
    refine ⟨[], ?_⟩
    by_cases h : isWS a = true <;> simp [collapseWS, h]
  | cons b rest IH =>
    by_cases ha : isWS a = true
    · by_cases hb : isWS b = true
      · obtain ⟨t, ht⟩ := IH b
        refine ⟨t, ?_⟩
        rw [show collapseWS (a :: b :: rest) = collapseWS (b :: rest) by
          simp [collapseWS, ha, hb], ht]
        simp [ha, hb]
      · refine ⟨collapseWS (b :: rest), ?_⟩
        simp [collapseWS, ha, hb]
    · have ha' : isWS a = false := by simpa using ha
      refine ⟨collapseWS (b :: rest), ?_⟩
      simp [collapseWS, ha']

lemma collapsed_collapseWS : ∀ l : List Char, collapsed (collapseWS l) = true := by
  intro l
  induction l with
  | nil => rfl
  | cons a t IH =>
    cases t with
    | nil =>
      by_cases h : isWS a = true <;>
        simp [collapseWS, collapsed, wsOk, h, isWS_space]
    | cons b rest =>
      by_cases ha : isWS a = true
      · by_cases hb : isWS b = true
        · rw [show collapseWS (a :: b :: rest) = collapseWS (b :: rest) by
            simp [collapseWS, ha, hb]]
          exact IH
        · obtain ⟨t', ht'⟩ := collapseWS_head b rest
          have hb' : isWS b = false := by simpa using hb
          rw [show collapseWS (a :: b :: rest) = ' ' :: collapseWS (b :: rest) by
            simp [collapseWS, ha, hb], ht']
          rw [ht'] at IH
          simp only [hb', Bool.false_eq_true, if_false] at IH ⊢
          simp [collapsed, wsOk, isWS_space, hb', IH]
      · have ha' : isWS a = false := by simpa using ha
        obtain ⟨t', ht'⟩ := collapseWS_head b rest
        rw [show collapseWS (a :: b :: rest) = a :: collapseWS (b :: rest) by
          simp [collapseWS, ha'], ht']
        rw [ht'] at IH
        by_cases hb : isWS b = true
        · simp only [hb, if_true] at IH ⊢
          simp [collapsed, wsOk, ha', isWS_space, IH]
        · have hb' : isWS b = false := by simpa using hb
          simp only [hb', Bool.false_eq_true, if_false] at IH ⊢
          simp [collapsed, wsOk, ha', hb', IH]

lemma collapseWS_getLast :
    ∀ (a : Char) (l : List Char) (z : Char),
      (a :: l).getLast? = some z → isWS z = false →
      (collapseWS (a :: l)).getLast? = some z := by
  intro a l
  induction l generalizing a with
  | nil =>
    intro z hz hws
    simp only [List.getLast?_singleton, Option.some.injEq] at hz
    subst hz
    simp [collapseWS, hws]
  | cons b rest IH =>
    intro z hz hws
    rw [List.getLast?_cons_cons] at hz
    have IH' := IH b z hz hws
    obtain ⟨t', ht'⟩ := collapseWS_head b rest
    by_cases ha : isWS a = true
    · by_cases hb : isWS b = true
      · rw [show collapseWS (a :: b :: rest) = collapseWS (b :: rest) by
          simp [collapseWS, ha, hb]]
        exact IH'
      · rw [show collapseWS (a :: b :: rest) = ' ' :: collapseWS (b :: rest) by
          simp [collapseWS, ha, hb], ht', List.getLast?_cons_cons, ← ht']
        exact IH'
    · have ha' : isWS a = false := by simpa using ha
      rw [show collapseWS (a :: b :: rest) = a :: collapseWS (b :: rest) by
        simp [collapseWS, ha'], ht', List.getLast?_cons_cons, ← ht']
      exact IH'

/-! ## Edges after `dropWhile` and `trimWS` -/

lemma dropWhile_getLast (p : Char → Bool) :
    ∀ Y : List Char, Y.dropWhile p ≠ [] →
      (Y.dropWhile p).getLast? = Y.getLast? := by
  intro Y
  induction Y with
  | nil => intro h; simp at h
  | cons a t IH =>
    intro h
    by_cases ha : p a = true
    · rw [List.dropWhile_cons_of_pos ha] at h ⊢
      have ht : t ≠ [] := by
        intro he; rw [he] at h; simp at h
      rw [IH h]
      cases t with
      | nil => exact absurd rfl ht
      | cons b rest => rw [List.getLast?_cons_cons]
    · have ha' : p a = false := by simpa using ha
      rw [List.dropWhile_cons_of_neg (by simp [ha'])]

lemma head?_dropWhile (p : Char → Bool) :
    ∀ (l : List Char) (a : Char), (l.dropWhile p).head? = some a → p a = false := by
  intro l
  induction l with
  | nil => intro a h; simp at h
  | cons b t IH =>
    intro a h
    by_cases hb : p b = true
    · rw [List.dropWhile_cons_of_pos hb] at h
      exact IH a h
    · have hb' : p b = false := by simpa using hb
      rw [List.dropWhile_cons_of_neg (by simp [hb'])] at h
      simp only [List.head?_cons, Option.some.injEq] at h
      subst h; exact hb'

lemma trimWS_head (l : List Char) (a : Char) :
    (trimWS l).head? = some a → isWS a = false := by
  intro h
  unfold trimWS at h
  rw [List.head?_reverse] at h
  have hne : (l.dropWhile isWS).reverse.dropWhile isWS ≠ [] := by
    intro he; rw [he] at h; simp at h
  rw [dropWhile_getLast isWS _ hne, List.getLast?_reverse] at h
  exact head?_dropWhile isWS _ a h

lemma trimWS_getLast (l : List Char) (a : Char) :
    (trimWS l).getLast? = some a → isWS a = false := by
  intro h
  unfold trimWS at h
  rw [List.getLast?_reverse] at h
  exact head?_dropWhile isWS _ a h

lemma trimWS_eq_self (l : List Char)
    (h1 : ∀ a, l.head? = some a → isWS a = false)
    (h2 : ∀ a, l.getLast? = some a → isWS a = false) :
    trimWS l = l := by
  have step1 : l.dropWhile isWS = l := by
    cases l with
    | nil => rfl
    | cons a t =>
      have := h1 a rfl
      rw [List.dropWhile_cons_of_neg (by simp [this])]
  have step2 : l.reverse.dropWhile isWS = l.reverse := by
    cases hr : l.reverse with
    | nil => rfl
    | cons a t =>
      have ha : l.getLast? = some a := by
        rw [← List.head?_reverse, hr]; rfl
      rw [List.dropWhile_cons_of_neg (by simp [h2 a ha])]
  unfold trimWS
  rw [step1, step2, List.reverse_reverse]

/-! ## Idempotence of normalization -/

lemma normalized_fixed (l : List Char) :
    collapseWS (trimWS (collapseWS (trimWS l))) = collapseWS (trimWS l) := by
  set N := collapseWS (trimWS l) with hN
  have hhead : ∀ a, N.head? = some a → isWS a = false := by
    intro a ha
    cases ht : trimWS l with
    | nil => rw [hN, ht] at ha; simp [collapseWS] at ha
    | cons b bs =>
      have hb : isWS b = false := trimWS_head l b (by rw [ht]; rfl)
      obtain ⟨t', ht'⟩ := collapseWS_head b bs
      rw [hN, ht, ht', hb] at ha
      simp only [if_false, List.head?_cons, Option.some.injEq] at ha
      subst ha; exact hb
  have hlast : ∀ a, N.getLast? = some a → isWS a = false := by
    intro a ha
    cases ht : trimWS l with
    | nil => rw [hN, ht] at ha; simp [collapseWS] at ha
    | cons b bs =>
      cases hz : (b :: bs).getLast? with
      | none => simp at hz
      | some z =>
        have hzws : isWS z = false := trimWS_getLast l z (by rw [ht]; exact hz)
        have := collapseWS_getLast b bs z hz hzws
        rw [hN, ht] at ha
        rw [this] at ha
        injection ha with ha'
        subst ha'; exact hzws
  rw [trimWS_eq_self N hhead hlast]
  exact collapseWS_eq_self N (collapsed_collapseWS (trimWS l))

/-- **C10.** Title normalization is idempotent: for every (possibly absent)
caption `s`, `normalizeTitle (normalizeTitle s) = normalizeTitle s`. -/
theorem normalizeTitle_idem (s : Option String) :
    normalizeTitle (some (normalizeTitle s)) = normalizeTitle s := by
  cases s with
  | none => rfl
  | some s =>
    show String.mk (collapseWS (trimWS (collapseWS (trimWS s.data)))) =
      String.mk (collapseWS (trimWS s.data))
    rw [normalized_fixed]

/-! ## The `videos` store

The `videos` table (index.js:24-31) keyed by `UNIQUE(chat_id, title)`;
SQLite compares `TEXT` under the default BINARY collation, so the key is the
byte-exact title.  The table is modelled as a list in rowid (insertion)
order; `ON CONFLICT ... DO UPDATE` updates in place, a fresh insert appends. -/

structure VideoRow where
  chat_id : String
  title : String
  message_id : Nat
  chat_title : Option String
  created_at : Nat
deriving DecidableEq

/-- The `UNIQUE(chat_id, title)` key comparison (BINARY collation). -/
def keyMatch (c t : String) (x : VideoRow) : Bool := x.chat_id == c && x.title == t

/-- The `DO UPDATE SET message_id, chat_title, created_at = excluded.*` clause
applied to the conflicting row. -/
def updFun (r x : VideoRow) : VideoRow :=
  if keyMatch r.chat_id r.title x then
    { x with message_id := r.message_id, chat_title := r.chat_title,
             created_at := r.created_at }
  else x

/-- `upsertVideo` (index.js:51-58): `INSERT ... ON CONFLICT(chat_id, title) DO
UPDATE SET message_id, chat_title, created_at = excluded.*`. -/
def upsertVideo (db : List VideoRow) (r : VideoRow) : List VideoRow :=
  if db.any (keyMatch r.chat_id r.title) then db.map (updFun r)
  else db ++ [r]

/-- Lexicographic (code-unit, i.e. SQLite BINARY) order on text; UTF-8 byte
order coincides with code-point order. -/
def lexLeChars : List Char → List Char → Bool
  | [], _ => true
  | _ :: _, [] => false
  | a :: as, b :: bs => if a = b then lexLeChars as bs else decide (a < b)

/-- The row the scan yields first: the matching row least in BINARY title
order (ties, impossible for rows of one chat under the UNIQUE key, keep the
earlier row). -/
def minByTitle : List VideoRow → Option VideoRow
  | [] => none
  | r :: rs =>
    match minByTitle rs with
    | none => some r
    | some m => if lexLeChars r.title.data m.title.data then some r else some m

/-- `exactVideo` (index.js:60-64): `WHERE chat_id = ? AND LOWER(title) =
LOWER(?) LIMIT 1`.  Without an `ORDER BY`, which matching row the single-row
result is is unspecified by SQL; the planner serves the `chat_id` equality
through the `(chat_id, title)` index implied by `UNIQUE(chat_id, title)`
(duplicated by `idx_videos_chat_title`), whose within-chat scan is BINARY
title ascending, so the embedding returns the matching row least in BINARY
title order.  Theorems below that depend on *which* matching row is returned
are stated at inputs where the alternative `(chat_id, created_at DESC)` index
order agrees. -/
def exactVideo (db : List VideoRow) (c t : String) : Option VideoRow :=
  minByTitle (db.filter (fun r => r.chat_id == c && lowerStr r.title == lowerStr t))

lemma minByTitle_mem : ∀ (l : List VideoRow) (r : VideoRow),
    minByTitle l = some r → r ∈ l := by
  intro l
  induction l with
  | nil => intro r h; cases h
  | cons a rs IH =>
    intro r h
    rw [minByTitle] at h
    split at h
    · injection h with h
      rw [← h]
      exact List.mem_cons_self a rs
    · rename_i m hm
      split at h
      · injection h with h
        rw [← h]
        exact List.mem_cons_self a rs
      · injection h with h
        rw [← h]
        exact List.mem_cons_of_mem a (IH m hm)

lemma minByTitle_isSome : ∀ l : List VideoRow, l ≠ [] →
    ∃ r, minByTitle l = some r := by
  intro l hl
  cases l with
  | nil => exact absurd rfl hl
  | cons a rs =>
    cases hm : minByTitle rs with
    | none => exact ⟨a, by rw [minByTitle, hm]⟩
    | some m =>
      by_cases hle : lexLeChars a.title.data m.title.data = true
      · refine ⟨a, ?_⟩
        rw [minByTitle, hm]
        show (if lexLeChars a.title.data m.title.data = true
          then some a else some m) = some a
        rw [if_pos hle]
      · refine ⟨m, ?_⟩
        rw [minByTitle, hm]
        show (if lexLeChars a.title.data m.title.data = true
          then some a else some m) = some m
        rw [if_neg hle]

/-! ### Substring containment (SQLite `INSTR(x, y) > 0`) -/

/-- `needle` occurs at the start of `hay`. -/
def startsB : List Char → List Char → Bool
  | [], _ => true
  | _ :: _, [] => false
  | a :: as, b :: bs => a == b && startsB as bs

/-- `needle` occurs somewhere inside `hay`; `INSTR(hay, needle) > 0`. -/
def containsB (needle : List Char) : List Char → Bool
  | [] => startsB needle []
  | b :: t => startsB needle (b :: t) || containsB needle t

/-- `INSTR(LOWER(title), LOWER(q)) > 0` (index.js:68). -/
def sqlContains (hay q : String) : Bool :=
  containsB (lowerStr q).data (lowerStr hay).data

/-- `ORDER BY created_at DESC`. -/
def byNewest (a b : VideoRow) : Prop := b.created_at ≤ a.created_at

instance : DecidableRel byNewest := fun a b => Nat.decLe b.created_at a.created_at
instance : IsTotal VideoRow byNewest := ⟨fun a b => Nat.le_total b.created_at a.created_at⟩
instance : IsTrans VideoRow byNewest := ⟨fun _ _ _ hab hbc => le_trans hbc hab⟩

/-- `likeVideos` (index.js:66-71): `WHERE chat_id = ? AND INSTR(LOWER(title),
LOWER(?)) > 0 ORDER BY created_at DESC LIMIT 5`. -/
def likeVideos (db : List VideoRow) (c q : String) : List VideoRow :=
  (List.insertionSort byNewest
    (db.filter (fun r => r.chat_id == c && sqlContains r.title q))).take 5

/-! ### Key uniqueness of the `videos` table -/

/-- No two rows share the `UNIQUE(chat_id, title)` key. -/
def keyUnique (db : List VideoRow) : Prop :=
  db.Pairwise (fun a b => ¬(a.chat_id = b.chat_id ∧ a.title = b.title))

lemma keyMatch_iff {c t : String} {x : VideoRow} :
    keyMatch c t x = true ↔ x.chat_id = c ∧ x.title = t := by
  simp [keyMatch]

lemma updFun_chat_id (r x : VideoRow) : (updFun r x).chat_id = x.chat_id := by
  unfold updFun; split <;> rfl

lemma updFun_title (r x : VideoRow) : (updFun r x).title = x.title := by
  unfold updFun; split <;> rfl

lemma updFun_eq_of_keyMatch {r x : VideoRow}
    (h : keyMatch r.chat_id r.title x = true) : updFun r x = r := by
  obtain ⟨h1, h2⟩ := keyMatch_iff.mp h
  unfold updFun
  rw [if_pos h]
  cases r
  simp_all

lemma keyUnique_upsertVideo {db : List VideoRow} (h : keyUnique db) (r : VideoRow) :
    keyUnique (upsertVideo db r) := by
  unfold upsertVideo
  by_cases hany : db.any (keyMatch r.chat_id r.title) = true
  · rw [if_pos hany]
    rw [keyUnique, List.pairwise_map]
    refine h.imp ?_
    intro a b hab hcon
    exact hab ⟨by rw [← updFun_chat_id r a, ← updFun_chat_id r b, hcon.1],
      by rw [← updFun_title r a, ← updFun_title r b, hcon.2]⟩
  · rw [if_neg hany]
    rw [keyUnique, List.pairwise_append]
    refine ⟨h, List.pairwise_singleton _ _, ?_⟩
    intro a ha b hb
    simp only [List.mem_singleton] at hb
    subst hb
    intro hcon
    rw [List.any_eq_true] at hany
    exact hany ⟨a, ha, keyMatch_iff.mpr ⟨hcon.1, hcon.2⟩⟩

lemma filter_key_length_le_one {db : List VideoRow} (h : keyUnique db)
    (c t : String) : (db.filter (keyMatch c t)).length ≤ 1 := by
  induction db with
  | nil => simp
  | cons a tl IH =>
    obtain ⟨ha, htl⟩ := List.pairwise_cons.mp h
    by_cases hk : keyMatch c t a = true
    · rw [List.filter_cons_of_pos hk]
      have hnil : tl.filter (keyMatch c t) = [] := by
        rw [List.filter_eq_nil_iff]
        intro b hb hkb
        obtain ⟨hac, hat⟩ := keyMatch_iff.mp hk
        obtain ⟨hbc, hbt⟩ := keyMatch_iff.mp hkb
        exact ha b hb ⟨hac.trans hbc.symm, hat.trans hbt.symm⟩
      rw [hnil]
      simp
    · rw [List.filter_cons_of_neg (by simpa using hk)]
      exact IH htl

lemma upsert_filter_key {db : List VideoRow} (h : keyUnique db) (r : VideoRow) :
    (upsertVideo db r).filter (keyMatch r.chat_id r.title) = [r] := by
  unfold upsertVideo
  by_cases hany : db.any (keyMatch r.chat_id r.title) = true
  · rw [if_pos hany]
    have hcomm : (db.map (updFun r)).filter (keyMatch r.chat_id r.title) =
        (db.filter (keyMatch r.chat_id r.title)).map (updFun r) := by
      rw [List.filter_map]
      congr 1
      apply List.filter_congr
      intro x _
      show keyMatch r.chat_id r.title (updFun r x) = keyMatch r.chat_id r.title x
      unfold keyMatch
      rw [updFun_chat_id, updFun_title]
    rw [hcomm]
    obtain ⟨x0, hx0mem, hx0⟩ := List.any_eq_true.mp hany
    have hle := filter_key_length_le_one h r.chat_id r.title
    have hmem : x0 ∈ db.filter (keyMatch r.chat_id r.title) :=
      List.mem_filter.mpr ⟨hx0mem, hx0⟩
    have hsingle : db.filter (keyMatch r.chat_id r.title) = [x0] := by
      cases hf : db.filter (keyMatch r.chat_id r.title) with
      | nil => rw [hf] at hmem; simp at hmem
      | cons y ys =>
        rw [hf] at hle hmem
        cases ys with
        | nil =>
          simp only [List.mem_singleton] at hmem
          rw [hmem]
        | cons z zs => simp at hle
    rw [hsingle, List.map_singleton, updFun_eq_of_keyMatch hx0]
  · rw [if_neg hany, List.filter_append]
    have h1 : db.filter (keyMatch r.chat_id r.title) = [] := by
      rw [List.filter_eq_nil_iff]
      intro b hb hkb
      exact hany (List.any_eq_true.mpr ⟨b, hb, hkb⟩)
    have h2 : [r].filter (keyMatch r.chat_id r.title) = [r] := by
      rw [List.filter_cons_of_pos (keyMatch_iff.mpr ⟨rfl, rfl⟩)]
      rfl
    rw [h1, h2, List.nil_append]

/-! ### Substring containment characterized -/

lemma startsB_iff (n : List Char) : ∀ h : List Char,
    (startsB n h = true ↔ ∃ t, h = n ++ t) := by
  induction n with
  | nil => intro h; simp [startsB]
  | cons a as IH =>
    intro h
    cases h with
    | nil =>
      simp only [startsB, List.cons_append]
      constructor
      · intro hx; cases hx
      · rintro ⟨t, ht⟩; cases ht
    | cons b bs =>
      simp only [startsB, Bool.and_eq_true, beq_iff_eq, IH bs, List.cons_append]
      constructor
      · rintro ⟨rfl, t, rfl⟩; exact ⟨t, rfl⟩
      · rintro ⟨t, ht⟩
        injection ht with h1 h2
        exact ⟨h1.symm, t, h2⟩

lemma containsB_iff (n : List Char) : ∀ h : List Char,
    (containsB n h = true ↔ ∃ pre post, h = pre ++ n ++ post) := by
  intro h
  induction h with
  | nil =>
    rw [show containsB n [] = startsB n [] from rfl, startsB_iff]
    constructor
    · rintro ⟨t, ht⟩; exact ⟨[], t, by simpa using ht⟩
    · rintro ⟨pre, post, hp⟩
      obtain ⟨h1, h2⟩ := List.append_eq_nil.mp hp.symm
      obtain ⟨h3, h4⟩ := List.append_eq_nil.mp h1
      exact ⟨[], by simp [h3, h4]⟩
  | cons b t IH =>
    rw [show containsB n (b :: t) = (startsB n (b :: t) || containsB n t) from rfl]
    simp only [Bool.or_eq_true, IH, startsB_iff]
    constructor
    · rintro (⟨s, hs⟩ | ⟨pre, post, hp⟩)
      · exact ⟨[], s, by simpa using hs⟩
      · exact ⟨b :: pre, post, by simp [hp]⟩
    · rintro ⟨pre, post, hp⟩
      cases pre with
      | nil => exact Or.inl ⟨post, by simpa using hp⟩
      | cons x pre' =>
        right
        injection hp with h1 h2
        exact ⟨pre', post, h2⟩

/-! ## Claim C1: uniqueness of Media Records per key -/

/-- **C1 counterexample.** Two uploads into the same chat whose titles are
equal case-insensitively but differ in letter case (`"a"` and `"A"`) leave
*two* rows for the case-insensitive key: `UNIQUE(chat_id, title)` compares
titles byte-exactly (BINARY collation), so no conflict fires. -/
theorem upsertVideo_ci_two_records :
    ((upsertVideo (upsertVideo [] ⟨"c", "a", 1, none, 10⟩) ⟨"c", "A", 2, none, 20⟩).filter
      (fun r => r.chat_id == "c" && lowerStr r.title == lowerStr "a")).length = 2 := by
  decide

/-- **C1 (amended).** For byte-identical normalized titles the invariant holds:
if the table satisfies key uniqueness, then after indexing two events with the
same exact `(chat_id, title)` key the table is still key-unique and holds
exactly one row for that key, carrying the second event's message reference,
chat title and timestamp (last-write-wins). -/
theorem upsertVideo_lww (db : List VideoRow) (r1 r2 : VideoRow)
    (h : keyUnique db) (hc : r2.chat_id = r1.chat_id) (ht : r2.title = r1.title) :
    keyUnique (upsertVideo (upsertVideo db r1) r2) ∧
    (upsertVideo (upsertVideo db r1) r2).filter (keyMatch r1.chat_id r1.title) = [r2] := by
  have h1 := keyUnique_upsertVideo h r1
  refine ⟨keyUnique_upsertVideo h1 r2, ?_⟩
  have h2 := upsert_filter_key h1 r2
  rw [hc, ht] at h2
  exact h2

/-- Witness for `upsertVideo_lww` at a concrete pair of events. -/
theorem upsertVideo_lww_witness :
    keyUnique (upsertVideo (upsertVideo [] ⟨"c", "Lesson", 1, none, 10⟩)
        ⟨"c", "Lesson", 2, some "g", 20⟩) ∧
    (upsertVideo (upsertVideo [] ⟨"c", "Lesson", 1, none, 10⟩)
        ⟨"c", "Lesson", 2, some "g", 20⟩).filter (keyMatch "c" "Lesson") =
      [⟨"c", "Lesson", 2, some "g", 20⟩] :=
  upsertVideo_lww [] ⟨"c", "Lesson", 1, none, 10⟩ ⟨"c", "Lesson", 2, some "g", 20⟩
    List.Pairwise.nil rfl rfl

/-! ## Claim C7: fuzzy search -/

/-- **C7.** Every row returned by `likeVideos db c S` belongs to chat `c` and
its ASCII-lowercased title contains the ASCII-lowercased query as a substring;
the result is ordered newest-first by `created_at` and has at most 5 rows. -/
theorem likeVideos_spec (db : List VideoRow) (c S : String) :
    (∀ r ∈ likeVideos db c S, r.chat_id = c ∧
        ∃ pre post, (lowerStr r.title).data = pre ++ (lowerStr S).data ++ post) ∧
    List.Sorted byNewest (likeVideos db c S) ∧
    (likeVideos db c S).length ≤ 5 := by
  refine ⟨?_, ?_, ?_⟩
  · intro r hr
    have hr1 : r ∈ List.insertionSort byNewest
        (db.filter (fun r => r.chat_id == c && sqlContains r.title S)) :=
      (List.take_sublist _ _).mem hr
    have hr2 := List.mem_insertionSort byNewest |>.mp hr1
    obtain ⟨_, hpred⟩ := List.mem_filter.mp hr2
    simp only [Bool.and_eq_true, beq_iff_eq] at hpred
    exact ⟨hpred.1, (containsB_iff _ _).mp hpred.2⟩
  · exact List.Pairwise.sublist (List.take_sublist _ _)
      (List.sorted_insertionSort byNewest _)
  · exact List.length_take_le _ _

/-- Witness for `likeVideos_spec`: the single indexed row is returned and all
three conjuncts hold at it. -/
theorem likeVideos_spec_witness :
    ((⟨"c", "Algebra Basics", 1, none, 10⟩ : VideoRow).chat_id = "c" ∧
      ∃ pre post, (lowerStr "Algebra Basics").data =
        pre ++ (lowerStr "algebra").data ++ post) ∧
    List.Sorted byNewest (likeVideos [⟨"c", "Algebra Basics", 1, none, 10⟩] "c" "algebra") ∧
    (likeVideos [⟨"c", "Algebra Basics", 1, none, 10⟩] "c" "algebra").length ≤ 5 :=
  ⟨(likeVideos_spec [⟨"c", "Algebra Basics", 1, none, 10⟩] "c" "algebra").1
      ⟨"c", "Algebra Basics", 1, none, 10⟩ (by decide),
    (likeVideos_spec [⟨"c", "Algebra Basics", 1, none, 10⟩] "c" "algebra").2.1,
    (likeVideos_spec [⟨"c", "Algebra Basics", 1, none, 10⟩] "c" "algebra").2.2⟩

/-! ## Claim C8: case-insensitive exact lookup -/

/-- **C8 counterexample.** Both `"lesson one"` and `"Lesson One"` can be
indexed in the same chat (the key is case-sensitive); the lookup for the
case-variant `"LESSON ONE"` matches both rows but returns the single row the
index scan yields first — the `"Lesson One"` row, which is least in BINARY
title order (`'L' < 'l'`) *and* newest (`created_at` 20 over 10), so both
candidate index plans agree on it.  The claim's "returns that record"
therefore fails for the record that was indexed under `"lesson one"`
(message 1): the query returns message 2 instead. -/
theorem exactVideo_index_order_cex :
    exactVideo (upsertVideo (upsertVideo [] ⟨"c", "lesson one", 1, none, 10⟩)
        ⟨"c", "Lesson One", 2, none, 20⟩) "c" "LESSON ONE" =
      some ⟨"c", "Lesson One", 2, none, 20⟩ ∧
    exactVideo (upsertVideo (upsertVideo [] ⟨"c", "lesson one", 1, none, 10⟩)
        ⟨"c", "Lesson One", 2, none, 20⟩) "c" "LESSON ONE" ≠
      some ⟨"c", "lesson one", 1, none, 10⟩ := by
  decide

/-- **C8 (amended).** Exact lookup is case-insensitive: if a record of chat
`c` is indexed whose title equals the query up to ASCII case, the lookup
returns a hit — some record of chat `c` whose title equals the query up to
ASCII case — and when that record is the only one of chat `c` with this
case-folded title, the hit is that record. -/
theorem exactVideo_ci_hit (db : List VideoRow) (c t1 t2 : String) (r : VideoRow)
    (hmem : r ∈ db) (hc : r.chat_id = c) (hci : lowerStr r.title = lowerStr t1)
    (h12 : lowerStr t1 = lowerStr t2) :
    ∃ r', exactVideo db c t2 = some r' ∧ r'.chat_id = c ∧
      lowerStr r'.title = lowerStr t2 ∧
      ((∀ x ∈ db, x.chat_id = c → lowerStr x.title = lowerStr t2 → x = r) → r' = r) := by
  have hp : (fun x : VideoRow => x.chat_id == c && (lowerStr x.title == lowerStr t2)) r
      = true := by
    simp only [Bool.and_eq_true, beq_iff_eq]
    exact ⟨hc, hci.trans h12⟩
  have hne : db.filter (fun x => x.chat_id == c && (lowerStr x.title == lowerStr t2)) ≠
      [] := by
    intro h0
    have hin : r ∈ db.filter
        (fun x : VideoRow => x.chat_id == c && (lowerStr x.title == lowerStr t2)) :=
      List.mem_filter.mpr ⟨hmem, hp⟩
    rw [h0] at hin
    simp at hin
  obtain ⟨r', hr'⟩ := minByTitle_isSome _ hne
  have hmem' := minByTitle_mem _ _ hr'
  obtain ⟨hrdb, hpr'⟩ := List.mem_filter.mp hmem'
  simp only [Bool.and_eq_true, beq_iff_eq] at hpr'
  exact ⟨r', hr', hpr'.1, hpr'.2, fun hu => hu r' hrdb hpr'.1 hpr'.2⟩

/-- Witness for `exactVideo_ci_hit` at a concrete record and query. -/
theorem exactVideo_ci_hit_witness :
    ∃ r', exactVideo [⟨"c", "Lesson One", 1, none, 10⟩] "c" "lesson one" = some r' ∧
      r'.chat_id = "c" ∧ lowerStr r'.title = lowerStr "lesson one" ∧
      ((∀ x ∈ [(⟨"c", "Lesson One", 1, none, 10⟩ : VideoRow)], x.chat_id = "c" →
          lowerStr x.title = lowerStr "lesson one" →
          x = ⟨"c", "Lesson One", 1, none, 10⟩) →
        r' = ⟨"c", "Lesson One", 1, none, 10⟩) :=
  exactVideo_ci_hit [⟨"c", "Lesson One", 1, none, 10⟩] "c" "Lesson One" "lesson one"
    ⟨"c", "Lesson One", 1, none, 10⟩ (by decide) rfl rfl (by decide)

/-! ## The `/find` resolver (index.js:281-402)

The handler runs every store access inside `try { ... } catch (e) {
console.error('find error', e); }`; a storage fault is modelled as an
`Except.error` that the wrapper converts into the `caught` disposition. -/

/-- A storage-layer fault (a `better-sqlite3` throw). -/
structure StorageFault where
  msg : String
deriving DecidableEq

/-- A row of `user_memberships` as returned by `findUserChats`
(index.js:107-111). -/
structure ChatRef where
  chat_id : String
  chat_title : Option String
deriving DecidableEq

/-- The store as seen by the `/find` handler; each query either returns rows
or throws. -/
structure Store where
  exactVideoQ : String → String → Except StorageFault (Option VideoRow)
  likeVideosQ : String → String → Except StorageFault (List VideoRow)
  findUserChatsQ : String → Except StorageFault (List ChatRef)

/-- The fault-free store over a `videos` table and the requester's
membership list. -/
def pureStore (db : List VideoRow) (chats : List ChatRef) : Store where
  exactVideoQ := fun c t => .ok (exactVideo db c t)
  likeVideosQ := fun c q => .ok (likeVideos db c q)
  findUserChatsQ := fun _ => .ok chats

/-- The outcome of one `/find` command. -/
inductive Disposition where
  | usage
  | noScope
  | forward (toId fromChat : String) (messageId : Nat)
  | ambiguousChats (names : List String)
  | ambiguousTitles (titles : List String)
  | ambiguousMixed (lines : List (String × String))
  | notFound
  | caught
deriving DecidableEq

/-- Group-scope resolution (index.js:296-332): exact lookup first, then the
fuzzy query, classifying by hit count. -/
def findGroupE (st : Store) (chatId q : String) : Except StorageFault Disposition := do
  let ex ← st.exactVideoQ chatId (lowerStr q)
  match ex with
  | some ex => return .forward chatId chatId ex.message_id
  | none =>
    let like ← st.likeVideosQ chatId q
    match like with
    | [r] => return .forward chatId chatId r.message_id
    | [] => return .notFound
    | rs => return .ambiguousTitles (rs.map (fun r => r.title))

/-- The private exact loop (index.js:345-349): query each chat in scope,
pooling the rows that exist. -/
def exactAcross (st : Store) (q : String) :
    List ChatRef → Except StorageFault (List VideoRow)
  | [] => .ok []
  | c :: cs => do
    let row ← st.exactVideoQ c.chat_id (lowerStr q)
    let rest ← exactAcross st q cs
    return (match row with | some r => r :: rest | none => rest)

/-- The private fuzzy loop (index.js:369-374): pool each chat's rows,
stopping after the chat that brings the pool to 6 or more. -/
def likeAcross (st : Store) (q : String) :
    List ChatRef → List VideoRow → Except StorageFault (List VideoRow)
  | [], acc => .ok acc
  | c :: cs, acc => do
    let rows ← st.likeVideosQ c.chat_id q
    if 6 ≤ (acc ++ rows).length then return (acc ++ rows)
    else likeAcross st q cs (acc ++ rows)

/-- Private-scope resolution (index.js:333-397). -/
def findPrivateE (st : Store) (userId q : String) : Except StorageFault Disposition := do
  let chats ← st.findUserChatsQ userId
  if chats.isEmpty then return .noScope
  else
    let exactHits ← exactAcross st q chats
    match exactHits with
    | [r] => return .forward userId r.chat_id r.message_id
    | [] => do
      let likeHits ← likeAcross st q chats []
      match likeHits with
      | [r] => return .forward userId r.chat_id r.message_id
      | [] => return .notFound
      | rs => return .ambiguousMixed ((rs.take 10).map
          (fun h => (h.chat_title.getD h.chat_id, h.title)))
    | rs => return .ambiguousChats (rs.map (fun h => h.chat_title.getD h.chat_id))

/-- The `/find` command body after query normalization: the usage reply is
sent before the `try`; everything else runs inside
`try { ... } catch (e) { console.error('find error', e); }` (index.js:399-401),
which sends nothing to the user. -/
def findCommand (st : Store) (isGrp : Bool) (chatId userId q : String) : Disposition :=
  if q = "" then .usage
  else
    match (if isGrp then findGroupE st chatId q else findPrivateE st userId q) with
    | .ok d => d
    | .error _ => .caught

/-- Whether a disposition results in any user-visible message (every branch
of the handler replies or forwards, except the `catch` block, which only
logs). -/
def sendsMessage : Disposition → Bool
  | .caught => false
  | _ => true

/-- The central error catcher `bot.catch` (index.js:567-574): a fault that
escapes a handler produces a "technical issue" reply in private chats only.
The `/find` handler's own catch-all prevents its faults from ever reaching
this. -/
def botCatch (isPrivate : Bool) : List String :=
  if isPrivate then ["Kutilmagan texnik nosozlik. Qayta urinib ko‘ring."] else []

/-- The handler over the fault-free store. -/
def findHandler (db : List VideoRow) (chats : List ChatRef)
    (isGrp : Bool) (chatId userId q : String) : Disposition :=
  findCommand (pureStore db chats) isGrp chatId userId q

/-! ### The two phases over the fault-free store -/

/-- Group-scope exact phase: the single `LIMIT 1` query of the one chat in
scope. -/
def exactPhaseGroup (db : List VideoRow) (c q : String) : List VideoRow :=
  (exactVideo db c (lowerStr q)).toList

/-- Group-scope fuzzy phase. -/
def fuzzyPhaseGroup (db : List VideoRow) (c q : String) : List VideoRow :=
  likeVideos db c q

/-- Private-scope exact phase: the pooled per-chat `LIMIT 1` queries. -/
def exactPhasePriv (db : List VideoRow) (chats : List ChatRef) (q : String) :
    List VideoRow :=
  chats.filterMap (fun c => exactVideo db c.chat_id (lowerStr q))

/-- The fault-free private fuzzy pooling with the ≥6 early stop. -/
def collectLike (db : List VideoRow) (q : String) :
    List ChatRef → List VideoRow → List VideoRow
  | [], acc => acc
  | c :: cs, acc =>
    if 6 ≤ (acc ++ likeVideos db c.chat_id q).length then acc ++ likeVideos db c.chat_id q
    else collectLike db q cs (acc ++ likeVideos db c.chat_id q)

/-- Private-scope fuzzy phase. -/
def fuzzyPhasePriv (db : List VideoRow) (chats : List ChatRef) (q : String) :
    List VideoRow :=
  collectLike db q chats []

lemma pureStore_exactQ (db : List VideoRow) (chats : List ChatRef) (c t : String) :
    (pureStore db chats).exactVideoQ c t = .ok (exactVideo db c t) := rfl

lemma pureStore_likeQ (db : List VideoRow) (chats : List ChatRef) (c q : String) :
    (pureStore db chats).likeVideosQ c q = .ok (likeVideos db c q) := rfl

lemma pureStore_chatsQ (db : List VideoRow) (chats : List ChatRef) (u : String) :
    (pureStore db chats).findUserChatsQ u = .ok chats := rfl

lemma ok_bind {α β : Type} (a : α) (f : α → Except StorageFault β) :
    (Except.ok a >>= f) = f a := rfl

lemma findGroupE_pure (db : List VideoRow) (chats : List ChatRef) (chatId q : String) :
    findGroupE (pureStore db chats) chatId q = .ok
      (match exactVideo db chatId (lowerStr q) with
        | some ex => .forward chatId chatId ex.message_id
        | none =>
          match likeVideos db chatId q with
          | [r] => .forward chatId chatId r.message_id
          | [] => .notFound
          | rs => .ambiguousTitles (rs.map (fun r => r.title))) := by
  unfold findGroupE
  rw [pureStore_exactQ, ok_bind]
  cases exactVideo db chatId (lowerStr q) with
  | some ex => rfl
  | none =>
    rw [pureStore_likeQ, ok_bind]
    cases likeVideos db chatId q with
    | nil => rfl
    | cons a tl =>
      cases tl with
      | nil => rfl
      | cons b tl2 => rfl

lemma exactAcross_pure (db : List VideoRow) (chats0 : List ChatRef) (q : String) :
    ∀ cs, exactAcross (pureStore db chats0) q cs =
      .ok (cs.filterMap (fun c => exactVideo db c.chat_id (lowerStr q))) := by
  intro cs
  induction cs with
  | nil => rfl
  | cons c cs IH =>
    unfold exactAcross
    rw [pureStore_exactQ, ok_bind, IH, ok_bind]
    cases hx : exactVideo db c.chat_id (lowerStr q) with
    | none => simp only [List.filterMap_cons, hx]; rfl
    | some v => simp only [List.filterMap_cons, hx]; rfl

lemma likeAcross_pure (db : List VideoRow) (chats0 : List ChatRef) (q : String) :
    ∀ cs acc, likeAcross (pureStore db chats0) q cs acc =
      .ok (collectLike db q cs acc) := by
  intro cs
  induction cs with
  | nil => intro acc; rfl
  | cons c cs IH =>
    intro acc
    unfold likeAcross
    rw [pureStore_likeQ, ok_bind, collectLike]
    by_cases h6 : 6 ≤ (acc ++ likeVideos db c.chat_id q).length
    · rw [if_pos h6, if_pos h6]; rfl
    · rw [if_neg h6, if_neg h6, IH]

lemma findPrivateE_pure (db : List VideoRow) (chats : List ChatRef) (userId q : String)
    (hchats : chats.isEmpty = false) :
    findPrivateE (pureStore db chats) userId q = .ok
      (match exactPhasePriv db chats q with
        | [r] => .forward userId r.chat_id r.message_id
        | [] =>
          match fuzzyPhasePriv db chats q with
          | [r] => .forward userId r.chat_id r.message_id
          | [] => .notFound
          | rs => .ambiguousMixed ((rs.take 10).map
              (fun h => (h.chat_title.getD h.chat_id, h.title)))
        | rs => .ambiguousChats (rs.map (fun h => h.chat_title.getD h.chat_id))) := by
  unfold findPrivateE
  rw [pureStore_chatsQ, ok_bind, hchats]
  simp only [Bool.false_eq_true, if_false]
  rw [exactAcross_pure db chats q chats, ok_bind]
  show (match exactPhasePriv db chats q with
    | [r] => pure (Disposition.forward userId r.chat_id r.message_id)
    | [] =>
      likeAcross (pureStore db chats) q chats [] >>= fun likeHits =>
      match likeHits with
      | [r] => pure (Disposition.forward userId r.chat_id r.message_id)
      | [] => pure Disposition.notFound
      | rs => pure (Disposition.ambiguousMixed ((rs.take 10).map
          (fun (h : VideoRow) => (h.chat_title.getD h.chat_id, h.title))))
    | rs => pure (Disposition.ambiguousChats (rs.map
        (fun (h : VideoRow) => h.chat_title.getD h.chat_id)))) = _
  cases exactPhasePriv db chats q with
  | cons r tl =>
    cases tl with
    | nil => rfl
    | cons b tl2 => rfl
  | nil =>
    rw [likeAcross_pure db chats q chats [], ok_bind]
    show (match fuzzyPhasePriv db chats q with
      | [r] => pure (Disposition.forward userId r.chat_id r.message_id)
      | [] => pure Disposition.notFound
      | rs => pure (Disposition.ambiguousMixed ((rs.take 10).map
          (fun (h : VideoRow) => (h.chat_title.getD h.chat_id, h.title))))) = _
    cases fuzzyPhasePriv db chats q with
    | nil => rfl
    | cons r tl =>
      cases tl with
      | nil => rfl
      | cons b tl2 => rfl

/-! ## Claim C2: two-phase resolution policy -/

/-- **C2.** For a query normalizing to non-empty text: the fuzzy phase is
consulted only when the exact phase yields zero hits across the whole scope;
within the producing phase exactly one hit resolves to a forward of that
hit's chat and message reference, more than one hit yields the ambiguous
disposition with the candidate list, and zero hits in both phases yields
"not found".  Stated for both the group scope (one chat, whose exact phase is
the single `LIMIT 1` query) and the private scope (all membership chats,
assumed non-empty). -/
theorem find_two_phase_policy (db : List VideoRow) (chats : List ChatRef)
    (chatId userId q : String) (hq : q ≠ "") (hchats : chats ≠ []) :
    ((∀ r, exactPhaseGroup db chatId q = [r] →
        findHandler db chats true chatId userId q = .forward chatId chatId r.message_id) ∧
      (exactPhaseGroup db chatId q = [] →
        ((∀ r, fuzzyPhaseGroup db chatId q = [r] →
            findHandler db chats true chatId userId q = .forward chatId chatId r.message_id) ∧
          (1 < (fuzzyPhaseGroup db chatId q).length →
            findHandler db chats true chatId userId q =
              .ambiguousTitles ((fuzzyPhaseGroup db chatId q).map (fun r => r.title))) ∧
          (fuzzyPhaseGroup db chatId q = [] →
            findHandler db chats true chatId userId q = .notFound)))) ∧
    ((∀ r, exactPhasePriv db chats q = [r] →
        findHandler db chats false chatId userId q = .forward userId r.chat_id r.message_id) ∧
      (1 < (exactPhasePriv db chats q).length →
        findHandler db chats false chatId userId q =
          .ambiguousChats ((exactPhasePriv db chats q).map
            (fun h => h.chat_title.getD h.chat_id))) ∧
      (exactPhasePriv db chats q = [] →
        ((∀ r, fuzzyPhasePriv db chats q = [r] →
            findHandler db chats false chatId userId q = .forward userId r.chat_id r.message_id) ∧
          (1 < (fuzzyPhasePriv db chats q).length →
            findHandler db chats false chatId userId q =
              .ambiguousMixed (((fuzzyPhasePriv db chats q).take 10).map
                (fun h => (h.chat_title.getD h.chat_id, h.title)))) ∧
          (fuzzyPhasePriv db chats q = [] →
            findHandler db chats false chatId userId q = .notFound)))) := by
  have hchats' : chats.isEmpty = false := by
    cases chats with
    | nil => exact absurd rfl hchats
    | cons a t => rfl
  have hg : findHandler db chats true chatId userId q =
      (match exactVideo db chatId (lowerStr q) with
        | some ex => .forward chatId chatId ex.message_id
        | none =>
          match likeVideos db chatId q with
          | [r] => .forward chatId chatId r.message_id
          | [] => .notFound
          | rs => .ambiguousTitles (rs.map (fun r => r.title))) := by
    unfold findHandler findCommand
    rw [if_neg hq, findGroupE_pure]
    rfl
  have hp : findHandler db chats false chatId userId q =
      (match exactPhasePriv db chats q with
        | [r] => .forward userId r.chat_id r.message_id
        | [] =>
          match fuzzyPhasePriv db chats q with
          | [r] => .forward userId r.chat_id r.message_id
          | [] => .notFound
          | rs => .ambiguousMixed ((rs.take 10).map
              (fun (h : VideoRow) => (h.chat_title.getD h.chat_id, h.title)))
        | rs => .ambiguousChats (rs.map
            (fun (h : VideoRow) => h.chat_title.getD h.chat_id))) := by
    unfold findHandler findCommand
    rw [if_neg hq, findPrivateE_pure db chats userId q hchats']
    rfl
  refine ⟨⟨?_, ?_⟩, ?_, ?_, ?_⟩
  · intro r hr
    have hx : exactVideo db chatId (lowerStr q) = some r := by
      cases hx : exactVideo db chatId (lowerStr q) with
      | none => simp [exactPhaseGroup, hx] at hr
      | some x =>
        simp only [exactPhaseGroup, hx, Option.toList_some, List.cons.injEq,
          and_true] at hr
        rw [hr]
    rw [hg, hx]
  · intro hex0
    have hex : exactVideo db chatId (lowerStr q) = none := by
      cases hx : exactVideo db chatId (lowerStr q) with
      | none => rfl
      | some x => simp [exactPhaseGroup, hx] at hex0
    refine ⟨?_, ?_, ?_⟩
    · intro r hr
      simp only [fuzzyPhaseGroup] at hr
      rw [hg, hex, hr]
    · intro hlen
      simp only [fuzzyPhaseGroup] at hlen ⊢
      cases hlk : likeVideos db chatId q with
      | nil => rw [hlk] at hlen; simp at hlen
      | cons a tl =>
        cases tl with
        | nil => rw [hlk] at hlen; simp at hlen
        | cons b tl2 => rw [hg, hex, hlk]
    · intro h0
      simp only [fuzzyPhaseGroup] at h0
      rw [hg, hex, h0]
  · intro r hr
    rw [hp, hr]
  · intro hlen
    cases hx : exactPhasePriv db chats q with
    | nil => rw [hx] at hlen; simp at hlen
    | cons a tl =>
      cases tl with
      | nil => rw [hx] at hlen; simp at hlen
      | cons b tl2 => rw [hp, hx]
  · intro hex0
    refine ⟨?_, ?_, ?_⟩
    · intro r hr
      rw [hp, hex0, hr]
    · intro hlen
      cases hfz : fuzzyPhasePriv db chats q with
      | nil => rw [hfz] at hlen; simp at hlen
      | cons a tl =>
        cases tl with
        | nil => rw [hfz] at hlen; simp at hlen
        | cons b tl2 => rw [hp, hex0, hfz]
    · intro h0
      rw [hp, hex0, h0]

/-- Witness for `find_two_phase_policy`: one group-scope video titled
"Algebra Basics", query "algebra" — the exact phase misses, the fuzzy phase
yields the single hit, and the command forwards it within the chat. -/
theorem find_two_phase_policy_witness :
    findHandler [⟨"g", "Algebra Basics", 5, none, 10⟩] [⟨"g", none⟩]
      true "g" "u" "algebra" = .forward "g" "g" 5 :=
  (((find_two_phase_policy [⟨"g", "Algebra Basics", 5, none, 10⟩] [⟨"g", none⟩]
      "g" "u" "algebra" (by decide) (by decide)).1.2 (by decide)).1
    ⟨"g", "Algebra Basics", 5, none, 10⟩ (by decide))

/-! ## Claim C6: storage faults during `/find` -/

/-- A store in which every query throws (e.g. the database file has become
unreadable). -/
def failStore : Store where
  exactVideoQ := fun _ _ => .error ⟨"SQLITE_IOERR"⟩
  likeVideosQ := fun _ _ => .error ⟨"SQLITE_IOERR"⟩
  findUserChatsQ := fun _ => .error ⟨"SQLITE_IOERR"⟩

/-- **C6 counterexample.** A storage fault during a private-chat `/find` is
swallowed by the handler's own catch block (index.js:399-401), which only
logs: the requester receives *no* message — not the "technical issue" notice
the claim promises for private contexts.  (`bot.catch` would send one, but
the fault never escapes the handler's `try`/`catch`.) -/
theorem findCommand_private_fault_silent :
    findCommand failStore false "g" "u" "algebra" = .caught ∧
    sendsMessage (findCommand failStore false "g" "u" "algebra") = false := by
  constructor <;> rfl

/-- **C6 (amended).** For every storage fault during `/find` processing of a
non-empty query, the handler catches it and returns normally with the
`caught` disposition — so the fault never terminates the process — but no
user-visible message is sent in either context, group or private. -/
theorem findCommand_fault_swallowed (st : Store) (isGrp : Bool)
    (chatId userId q : String) (f : StorageFault) (hq : q ≠ "")
    (hf : (if isGrp then findGroupE st chatId q else findPrivateE st userId q) =
      .error f) :
    findCommand st isGrp chatId userId q = .caught ∧
    sendsMessage (findCommand st isGrp chatId userId q) = false := by
  have h : findCommand st isGrp chatId userId q = .caught := by
    unfold findCommand
    rw [if_neg hq, hf]
  exact ⟨h, by rw [h]; rfl⟩

/-- Witness for `findCommand_fault_swallowed` at the always-failing store in a
group context. -/
theorem findCommand_fault_swallowed_witness :
    findCommand failStore true "g" "u" "x" = .caught ∧
    sendsMessage (findCommand failStore true "g" "u" "x") = false :=
  findCommand_fault_swallowed failStore true "g" "u" "x" ⟨"SQLITE_IOERR"⟩
    (by decide) rfl

/-! ## The per-destination delivery queue (index.js:133-145)

`queueForChat` keeps, per destination key, the promise of the last queued
call (`chatLocks`).  A new call chains
`prev.catch(() => {}).then(async () => { await sleep(1100); return task(); })`
behind it and becomes the stored promise.  A settled promise is modelled as
its settle time paired with its outcome; a queued call as its duration plus a
success flag; and the scheduler as the deterministic timing this chaining
yields when the calls are submitted up-front. -/

/-- Outcome of a settled promise. -/
inductive PromState where
  | fulfilled
  | rejected
deriving DecidableEq

/-- A queued call: how long it runs and whether it succeeds. -/
structure TaskSpec where
  dur : Nat
  ok : Bool
deriving DecidableEq

/-- `prev.catch(() => {})`: a rejection is converted to fulfillment at the
same settle time ("keep chain alive"). -/
def catchKeepAlive (p : Nat × PromState) : Nat × PromState := (p.1, .fulfilled)

/-- `.then(async () => { await sleep(1100); return task(); })`: when the
upstream promise is rejected the callback never runs and the rejection passes
through; otherwise 1100ms of sleep start at the upstream settle time, then
the task runs for its duration and settles with its own outcome. -/
def thenSleepTask (p : Nat × PromState) (t : TaskSpec) : Nat × PromState :=
  match p.2 with
  | .rejected => p
  | .fulfilled => (p.1 + 1100 + t.dur, if t.ok then .fulfilled else .rejected)

/-- One `queueForChat` link: `prev.catch(() => {}).then(...)`. -/
def chainLink (p : Nat × PromState) (t : TaskSpec) : Nat × PromState :=
  thenSleepTask (catchKeepAlive p) t

/-- Start time of the call chained behind promise `p` (the 1100ms sleep ends
and `task()` is invoked).  Thanks to the `catch`, this callback always runs. -/
def linkStart (p : Nat × PromState) : Nat := (catchKeepAlive p).1 + 1100

/-- Start times of the calls queued behind `p`, in submission order. -/
def queueStarts (p : Nat × PromState) : List TaskSpec → List Nat
  | [] => []
  | t :: ts => linkStart p :: queueStarts (chainLink p t) ts

/-- Settle times of the calls queued behind `p`, in submission order. -/
def queueSettles (p : Nat × PromState) : List TaskSpec → List Nat
  | [] => []
  | t :: ts => (chainLink p t).1 :: queueSettles (chainLink p t) ts

/-- The `chatLocks` map: per destination key the stored promise of the last
queued call; a missing key reads as `Promise.resolve()`, settled at time 0. -/
def initLocks : String → Nat × PromState := fun _ => (0, .fulfilled)

/-- `queueForChat(chatId, task)`: chain behind the stored promise and store
the new one. -/
def enqueue (locks : String → Nat × PromState) (key : String) (t : TaskSpec) :
    String → Nat × PromState :=
  fun k => if k = key then chainLink (locks key) t else locks k

/-- Submit a list of `(destination, call)` pairs in order, recording each
call's start time. -/
def enqueueStarts (locks : String → Nat × PromState) :
    List (String × TaskSpec) → List (String × Nat)
  | [] => []
  | (k, t) :: rest => (k, linkStart (locks k)) :: enqueueStarts (enqueue locks k t) rest

lemma chainLink_fst (p : Nat × PromState) (t : TaskSpec) :
    (chainLink p t).1 = p.1 + 1100 + t.dur := rfl

lemma queueStarts_length (p : Nat × PromState) :
    ∀ ts : List TaskSpec, (queueStarts p ts).length = ts.length := by
  intro ts
  induction ts generalizing p with
  | nil => rfl
  | cons t ts IH => simp [queueStarts, IH]

lemma queueStarts_spacing (p : Nat × PromState) :
    ∀ ts : List TaskSpec, List.Chain' (fun a b => a + 1100 ≤ b) (queueStarts p ts) := by
  intro ts
  induction ts generalizing p with
  | nil => simp [queueStarts]
  | cons t ts IH =>
    cases ts with
    | nil => simp [queueStarts]
    | cons t2 ts2 =>
      rw [queueStarts]
      refine List.Chain'.cons ?_ (IH (chainLink p t))
      show linkStart p + 1100 ≤ linkStart (chainLink p t)
      simp only [linkStart, catchKeepAlive, chainLink_fst]
      omega

lemma queueSettles_mono (p : Nat × PromState) :
    ∀ ts : List TaskSpec, List.Chain' (fun a b => a < b) (queueSettles p ts) := by
  intro ts
  induction ts generalizing p with
  | nil => simp [queueSettles]
  | cons t ts IH =>
    cases ts with
    | nil => simp [queueSettles]
    | cons t2 ts2 =>
      rw [queueSettles]
      refine List.Chain'.cons ?_ (IH (chainLink p t))
      show (chainLink p t).1 < (chainLink (chainLink p t) t2).1
      rw [chainLink_fst (chainLink p t) t2]
      omega

lemma queueStarts_eq_of_fst :
    ∀ (ts : List TaskSpec) (p p' : Nat × PromState), p.1 = p'.1 →
      queueStarts p ts = queueStarts p' ts := by
  intro ts
  induction ts with
  | nil => intro p p' _; rfl
  | cons t ts IH =>
    intro p p' hp
    rw [queueStarts, queueStarts]
    congr 1
    · simp [linkStart, catchKeepAlive, hp]
    · exact IH _ _ (by simp [chainLink_fst, hp])

/-- The schedule depends only on the durations: flipping success flags of any
queued call leaves every start time unchanged (the `catch` keeps the chain
alive, so a failure delays nothing and skips nothing). -/
lemma queueStarts_durs (p : Nat × PromState) :
    ∀ ts ts' : List TaskSpec, ts.map TaskSpec.dur = ts'.map TaskSpec.dur →
      queueStarts p ts = queueStarts p ts' := by
  intro ts
  induction ts generalizing p with
  | nil =>
    intro ts' h
    cases ts' with
    | nil => rfl
    | cons a l => simp at h
  | cons t ts IH =>
    intro ts' h
    cases ts' with
    | nil => simp at h
    | cons t' ts2 =>
      simp only [List.map_cons, List.cons.injEq] at h
      rw [queueStarts, queueStarts]
      congr 1
      rw [IH (chainLink p t) ts2 h.2]
      exact queueStarts_eq_of_fst ts2 _ _ (by simp [chainLink_fst, h.1])

/-- The calls submitted for destination `key`. -/
def subsFor (key : String) (subs : List (String × TaskSpec)) : List TaskSpec :=
  (subs.filter (fun s => s.1 == key)).map (fun s => s.2)

/-- Per-destination independence: within any interleaved submission list, the
start times observed for destination `key` are exactly those of `key`'s own
queue running alone — submissions to other destinations impose nothing. -/
lemma enqueueStarts_filter :
    ∀ (subs : List (String × TaskSpec)) (locks : String → Nat × PromState) (key : String),
      ((enqueueStarts locks subs).filter (fun s => s.1 == key)).map (fun s => s.2) =
        queueStarts (locks key) (subsFor key subs) := by
  intro subs
  induction subs with
  | nil => intro locks key; rfl
  | cons s rest IH =>
    intro locks key
    obtain ⟨k, t⟩ := s
    by_cases hk : k = key
    · subst hk
      rw [show enqueueStarts locks ((k, t) :: rest) =
        (k, linkStart (locks k)) :: enqueueStarts (enqueue locks k t) rest from rfl]
      rw [List.filter_cons_of_pos (by simp), List.map_cons]
      rw [show subsFor k ((k, t) :: rest) = t :: subsFor k rest by
        simp [subsFor, List.filter_cons]]
      rw [queueStarts, IH (enqueue locks k t) k]
      rw [show (enqueue locks k t) k = chainLink (locks k) t by simp [enqueue]]
    · have hk' : (k == key) = false := by simp [hk]
      rw [show enqueueStarts locks ((k, t) :: rest) =
        (k, linkStart (locks k)) :: enqueueStarts (enqueue locks k t) rest from rfl]
      rw [List.filter_cons_of_neg (by simp [hk'])]
      rw [show subsFor key ((k, t) :: rest) = subsFor key rest by
        simp [subsFor, List.filter_cons, hk']]
      rw [IH (enqueue locks k t) key]
      rw [show (enqueue locks k t) key = locks key from if_neg (fun h => hk h.symm)]

/-! ## Claim C3: per-destination FIFO with 1100ms spacing -/

/-- **C3.** For every destination key and any interleaved submission list:
the start times observed for that key are exactly those of its own FIFO
queue running alone (calls to other destinations impose no ordering); every
queued call gets a start (one per submission, in submission order);
consecutive call starts to the key are at least 1100ms apart; settle times
strictly increase, so the calls settle strictly in submission order; and
failures change nothing — any success/failure pattern with the same durations
yields the same schedule. -/
theorem queueForChat_fifo (subs : List (String × TaskSpec)) (key : String)
    (ts' : List TaskSpec)
    (hdur : (subsFor key subs).map TaskSpec.dur = ts'.map TaskSpec.dur) :
    ((enqueueStarts initLocks subs).filter (fun s => s.1 == key)).map (fun s => s.2) =
      queueStarts (initLocks key) (subsFor key subs) ∧
    (queueStarts (initLocks key) (subsFor key subs)).length = (subsFor key subs).length ∧
    List.Chain' (fun a b => a + 1100 ≤ b) (queueStarts (initLocks key) (subsFor key subs)) ∧
    List.Chain' (fun a b => a < b) (queueSettles (initLocks key) (subsFor key subs)) ∧
    queueStarts (initLocks key) (subsFor key subs) = queueStarts (initLocks key) ts' :=
  ⟨enqueueStarts_filter subs initLocks key,
   queueStarts_length _ _,
   queueStarts_spacing _ _,
   queueSettles_mono _ _,
   queueStarts_durs _ _ _ hdur⟩

/-- Witness for `queueForChat_fifo`: three calls to destination "a" (the
middle one failing) interleaved with one call to "b"; the same durations
with flipped success flags are supplied for the failure-independence part. -/
theorem queueForChat_fifo_witness :
    List.Chain' (fun a b => a + 1100 ≤ b)
      (queueStarts (initLocks "a")
        (subsFor "a" [("a", ⟨50, true⟩), ("b", ⟨10, true⟩),
          ("a", ⟨20, false⟩), ("a", ⟨30, true⟩)])) :=
  (queueForChat_fifo
    [("a", ⟨50, true⟩), ("b", ⟨10, true⟩), ("a", ⟨20, false⟩), ("a", ⟨30, true⟩)]
    "a" [⟨50, false⟩, ⟨20, true⟩, ⟨30, false⟩] (by decide)).2.2.1

/-! ## The rate-limit retry wrapper `tgCall` (index.js:148-168) -/

/-- The error thrown by a transport call, as probed by `tgCall`: the three
`retry_after` locations tried by the `??` chain, the two 429 code fields, and
whether the description contains "Too Many Requests".  `retry_after` values
are numbers (as the transport library delivers them), modelled as `Nat`. -/
structure TgError where
  onRetryAfter : Option Nat
  paramsRetryAfter : Option Nat
  responseRetryAfter : Option Nat
  code : Option Nat
  statusCode : Option Nat
  descTooMany : Bool
deriving DecidableEq

/-- `e?.on?.parameters?.retry_after ?? e?.parameters?.retry_after ??
e?.response?.parameters?.retry_after` (`??` skips only null/undefined, so a
present `0` is kept). -/
def retryHint (e : TgError) : Option Nat :=
  e.onRetryAfter <|> e.paramsRetryAfter <|> e.responseRetryAfter

/-- `e?.code === 429 || e?.statusCode === 429 ||
e?.description?.includes?.('Too Many Requests')`. -/
def is429 (e : TgError) : Bool :=
  e.code == some 429 || e.statusCode == some 429 || e.descTooMany

/-- Truthiness of `retry` in `if (is429 && retry)`: the number `0` is falsy. -/
def truthyHint (e : TgError) : Bool :=
  match retryHint e with
  | some n => !(n == 0)
  | none => false

/-- What one `tgCall` invocation did. -/
structure CallTrace (α : Type) where
  result : Except TgError α
  sleepsMs : List Nat
  attempts : Nat
  paces : Nat

/-- `tgCall(fn)`: pace globally and call; on failure, if the error is a
rate-limit signal with a truthy `retry_after`, sleep `(retry + 1) * 1000` ms,
pace again, and call exactly once more, whatever that second call does; any
other failure is rethrown.  The two potential invocations of `fn` are passed
as their outcomes. -/
def tgCall {α : Type} (first second : Except TgError α) : CallTrace α :=
  match first with
  | .ok a => { result := .ok a, sleepsMs := [], attempts := 1, paces := 1 }
  | .error e =>
    if is429 e && truthyHint e then
      { result := second,
        sleepsMs := [((retryHint e).getD 0 + 1) * 1000],
        attempts := 2, paces := 2 }
    else { result := .error e, sleepsMs := [], attempts := 1, paces := 1 }

/-! ## Claim C4: the retry policy -/

/-- **C4 counterexample.** A rate-limit failure carrying the retry-after hint
`N = 0` is *not* retried: `if (is429 && retry)` treats the number `0` as
falsy, so the call propagates after one attempt instead of sleeping
`0 + 1` seconds and retrying as the claim requires for every hinted `N`. -/
theorem tgCall_zero_hint_no_retry :
    (tgCall (α := Nat) (.error ⟨some 0, none, none, some 429, none, false⟩)
      (.ok 7)).attempts = 1 ∧
    (tgCall (α := Nat) (.error ⟨some 0, none, none, some 429, none, false⟩)
      (.ok 7)).result = .error ⟨some 0, none, none, some 429, none, false⟩ ∧
    (tgCall (α := Nat) (.error ⟨some 0, none, none, some 429, none, false⟩)
      (.ok 7)).sleepsMs = [] := by
  refine ⟨rfl, rfl, rfl⟩

/-- **C4 (amended).** A success needs one attempt and no sleep.  A failure
that is a rate-limit signal carrying a *positive* retry-after hint `N` sleeps
`N + 1` seconds, reapplies the global pace (two paces in total), and retries
exactly once, the second outcome — success or failure — being final.  Any
other failure (not a rate-limit signal, no hint, or a zero hint) propagates
after a single attempt with no sleep. -/
theorem tgCall_retry_policy {α : Type} (first second : Except TgError α) :
    (∀ a, first = .ok a →
      tgCall first second = { result := .ok a, sleepsMs := [], attempts := 1, paces := 1 }) ∧
    (∀ e n, first = .error e → is429 e = true → retryHint e = some n → 0 < n →
      tgCall first second =
        { result := second, sleepsMs := [(n + 1) * 1000], attempts := 2, paces := 2 }) ∧
    (∀ e, first = .error e →
      (is429 e = false ∨ retryHint e = none ∨ retryHint e = some 0) →
      tgCall first second =
        { result := .error e, sleepsMs := [], attempts := 1, paces := 1 }) := by
  refine ⟨?_, ?_, ?_⟩
  · intro a h
    rw [h]
    rfl
  · intro e n h h429 hhint hn
    rw [h]
    have ht : truthyHint e = true := by
      unfold truthyHint
      rw [hhint]
      simp
      omega
    simp [tgCall, h429, ht, hhint]
  · intro e h hcase
    rw [h]
    have hcond : (is429 e && truthyHint e) = false := by
      rcases hcase with h4 | hh | hh
      · rw [h4]; rfl
      · unfold truthyHint
        rw [hh]
        simp
      · unfold truthyHint
        rw [hh]
        simp
    simp [tgCall, hcond]

/-- Witness for `tgCall_retry_policy`: a 429 with `retry_after = 2` sleeps
3000ms and is retried exactly once; the retry's failure is final. -/
theorem tgCall_retry_policy_witness :
    tgCall (α := Nat)
      (.error ⟨none, some 2, none, none, some 429, false⟩)
      (.error ⟨none, none, none, none, none, false⟩) =
      { result := .error ⟨none, none, none, none, none, false⟩,
        sleepsMs := [3000], attempts := 2, paces := 2 } :=
  (tgCall_retry_policy
      (.error ⟨none, some 2, none, none, some 429, false⟩)
      (.error ⟨none, none, none, none, none, false⟩)).2.1
    ⟨none, some 2, none, none, some 429, false⟩ 2 rfl (by decide) (by decide) (by decide)

/-! ## The media indexer (index.js:223-250) and the caption-edit re-indexer
(index.js:253-278) -/

/-- A generic file attachment (`msg.document`). -/
structure DocAttach where
  file_name : Option String
  mime_type : Option String
deriving DecidableEq

/-- The media-relevant shape of an inbound message. -/
structure MediaMsg where
  message_id : Nat
  caption : Option String
  video : Bool
  animation : Bool
  video_note : Bool
  document : Option DocAttach
deriving DecidableEq

/-- `file_name.replace(/\.[^.]+$/, '')`: drop a final dot followed by one or
more non-dot characters, if present. -/
def stripLastExt (s : String) : String :=
  let rev := s.data.reverse
  let seg := rev.takeWhile (fun c => c != '.')
  if seg.length < rev.length ∧ 0 < seg.length then
    String.mk ((rev.drop (seg.length + 1)).reverse)
  else s

/-- `msg.document?.mime_type && msg.document.mime_type.startsWith('video/')`. -/
def mimeVideo (d : Option DocAttach) : Bool :=
  match d with
  | some d =>
    match d.mime_type with
    | some m => startsB "video/".data m.data
    | none => false
  | none => false

/-- The initial indexer `bot.on(['video','document'])` (index.js:223-250):
derive a title (caption first, else the document file name without its
extension), gate on group scope and video type, and return the `upsertVideo`
arguments, or `none` when the event is ignored. -/
def indexMedia (isGrp : Bool) (chatId : String) (chatTitle : Option String)
    (now : Nat) (msg : MediaMsg) : Option VideoRow :=
  if !isGrp then none
  else
    let title0 := normalizeTitle msg.caption
    let title :=
      if title0 = "" then
        match msg.document with
        | some d =>
          match d.file_name with
          | some fn => normStr (stripLastExt fn)
          | none => ""
        | none => ""
      else title0
    let isVideoType := msg.video || mimeVideo msg.document
    if !isVideoType || title = "" then none
    else some ⟨chatId, title, msg.message_id, chatTitle, now⟩

/-- The caption-edit re-indexer `bot.on('edited_message')` (index.js:253-278):
title from the caption only, with a wider type gate that also accepts
animations and video notes. -/
def indexEdited (isGrp : Bool) (chatId : String) (chatTitle : Option String)
    (now : Nat) (msg : MediaMsg) : Option VideoRow :=
  if !isGrp then none
  else
    let title := normalizeTitle msg.caption
    let looksLikeVideo :=
      msg.video || msg.animation || msg.video_note || mimeVideo msg.document
    if !looksLikeVideo || title = "" then none
    else some ⟨chatId, title, msg.message_id, chatTitle, now⟩

/-! ## Claim C5: the caption-edit gate -/

/-- **C5 counterexample.**  (1) An edited *animation* message with a caption
is re-indexed although an animation is not a qualifying media type for
initial indexing (the same message is ignored by the initial indexer), so the
claimed "only if" direction fails.  (2) An edited video-mime document with no
caption but a file name is ignored by the edit handler although initial
indexing would derive the title "algebra" from the file name — the edit does
*not* re-run the same derivation. -/
theorem indexEdited_gate_cex :
    indexEdited true "c" none 99 ⟨7, some "Dars 1", false, true, false, none⟩ =
      some ⟨"c", "Dars 1", 7, none, 99⟩ ∧
    indexMedia true "c" none 99 ⟨7, some "Dars 1", false, true, false, none⟩ = none ∧
    indexEdited true "c" none 99
      ⟨8, none, false, false, false, some ⟨some "algebra.mp4", some "video/mp4"⟩⟩ = none ∧
    indexMedia true "c" none 99
      ⟨8, none, false, false, false, some ⟨some "algebra.mp4", some "video/mp4"⟩⟩ =
      some ⟨"c", "algebra", 8, none, 99⟩ := by
  refine ⟨by decide, by decide, by decide, by decide⟩

/-- **C5 (amended).** A caption-edit event in a group re-runs the upsert if
and only if the edited message carries native video, animation, or video-note
content, or a video-mime document, *and* its caption normalizes to non-empty
text; the stored title is the normalized caption (the file-name fallback of
initial indexing is not applied).  When the edited message is of an
initially-qualifying type (native video or video-mime document) and its
caption is non-empty, the edit performs exactly the upsert initial indexing
would perform on that message. -/
theorem indexEdited_gate (isGrp : Bool) (chatId : String) (chatTitle : Option String)
    (now : Nat) (msg : MediaMsg) :
    ((∃ r, indexEdited isGrp chatId chatTitle now msg = some r) ↔
      (isGrp = true ∧
        (msg.video || msg.animation || msg.video_note || mimeVideo msg.document) = true ∧
        normalizeTitle msg.caption ≠ "")) ∧
    (∀ r, indexEdited isGrp chatId chatTitle now msg = some r →
      r = ⟨chatId, normalizeTitle msg.caption, msg.message_id, chatTitle, now⟩) ∧
    ((isGrp = true ∧ (msg.video || mimeVideo msg.document) = true ∧
        normalizeTitle msg.caption ≠ "") →
      indexEdited isGrp chatId chatTitle now msg =
        indexMedia isGrp chatId chatTitle now msg) := by
  refine ⟨?_, ?_, ?_⟩
  · constructor
    · rintro ⟨r, hr⟩
      unfold indexEdited at hr
      by_cases hg : isGrp = true
      · rw [hg] at hr
        simp only [Bool.not_true, Bool.false_eq_true, if_false] at hr
        by_cases hv : (msg.video || msg.animation || msg.video_note ||
            mimeVideo msg.document) = true
        · refine ⟨hg, hv, ?_⟩
          intro hnil
          rw [hv, hnil] at hr
          simp at hr
        · rw [Bool.not_eq_true] at hv
          rw [hv] at hr
          simp at hr
      · rw [Bool.not_eq_true] at hg
        rw [hg] at hr
        simp at hr
    · rintro ⟨hg, hv, ht⟩
      refine ⟨⟨chatId, normalizeTitle msg.caption, msg.message_id, chatTitle, now⟩, ?_⟩
      unfold indexEdited
      rw [hg, hv]
      simp [ht]
  · intro r hr
    unfold indexEdited at hr
    by_cases hg : isGrp = true
    · rw [hg] at hr
      simp only [Bool.not_true, Bool.false_eq_true, if_false] at hr
      by_cases hv : (msg.video || msg.animation || msg.video_note ||
          mimeVideo msg.document) = true
      · rw [hv] at hr
        by_cases ht : normalizeTitle msg.caption = ""
        · rw [ht] at hr
          simp at hr
        · simp only [Bool.not_true, Bool.false_or, if_neg, ht] at hr
          simp [ht] at hr
          exact hr.symm
      · rw [Bool.not_eq_true] at hv
        rw [hv] at hr
        simp at hr
    · rw [Bool.not_eq_true] at hg
      rw [hg] at hr
      simp at hr
  · rintro ⟨hg, hv, ht⟩
    have hv' : (msg.video || msg.animation || msg.video_note ||
        mimeVideo msg.document) = true := by
      rcases Bool.or_eq_true_iff.mp hv with h | h
      · simp [h]
      · simp [h]
    have ht0 : (normalizeTitle msg.caption = "") = False := by
      simp [ht]
    unfold indexEdited indexMedia
    rw [hg, hv, hv']
    simp only [Bool.not_true, Bool.false_eq_true, if_false, ht0]

/-- Witness for `indexEdited_gate`: an edited native video with caption
"Dars 2" re-indexes exactly as initial indexing would. -/
theorem indexEdited_gate_witness :
    indexEdited true "c" none 50 ⟨3, some "Dars 2", true, false, false, none⟩ =
      indexMedia true "c" none 50 ⟨3, some "Dars 2", true, false, false, none⟩ :=
  (indexEdited_gate true "c" none 50 ⟨3, some "Dars 2", true, false, false, none⟩).2.2
    ⟨rfl, by decide, by decide⟩

/-! ## The lessons menu (index.js:408-503) and the callback handler
(index.js:509-547) -/

/-- A row of `user_memberships` (index.js:33-39). -/
structure MembershipRow where
  user_id : String
  chat_id : String
  last_seen : Nat
  chat_title : Option String
deriving DecidableEq

/-- `listChatVideos` (index.js:73-79): `WHERE chat_id = ? ORDER BY created_at
DESC LIMIT ? OFFSET ?`. -/
def listChatVideos (db : List VideoRow) (c : String) (limit offset : Nat) :
    List VideoRow :=
  ((List.insertionSort byNewest (db.filter (fun r => r.chat_id == c))).drop offset).take limit

/-- `countChatVideos` (index.js:80-82). -/
def countChatVideos (db : List VideoRow) (c : String) : Nat :=
  (db.filter (fun r => r.chat_id == c)).length

/-- The semijoin of `listUserVideos` (index.js:84-91): videos of every chat
the user has a membership row for (`UNIQUE(user_id, chat_id)` makes the join
a semijoin). -/
def userVideos (db : List VideoRow) (ums : List MembershipRow) (u : String) :
    List VideoRow :=
  db.filter (fun v => ums.any (fun um => um.user_id == u && um.chat_id == v.chat_id))

/-- `listUserVideos` (index.js:84-91). -/
def listUserVideos (db : List VideoRow) (ums : List MembershipRow) (u : String)
    (limit offset : Nat) : List VideoRow :=
  ((List.insertionSort byNewest (userVideos db ums u)).drop offset).take limit

/-- `countUserVideos` (index.js:92-97). -/
def countUserVideos (db : List VideoRow) (ums : List MembershipRow) (u : String) : Nat :=
  (userVideos db ums u).length

/-- Telegram chat types relevant to the handlers. -/
inductive ChatType where
  | group
  | supergroup
  | privateChat
  | channel
deriving DecidableEq

/-- `isGroup` (index.js:114-115). -/
def isGroupChat : ChatType → Bool
  | .group => true
  | .supergroup => true
  | _ => false

/-- The conversation a handler runs in: its type and id (`ctx.chat`) and the
tapping user (`ctx.from`). -/
structure MenuCtx where
  chatType : ChatType
  chatId : String
  fromId : String
deriving DecidableEq

/-- `trunc` (index.js:117). -/
def trunc (s : String) (n : Nat) : String :=
  if s.length ≤ n then s else String.mk (s.data.take (n - 1)) ++ "…"

/-- What `showLessonsMenu` sends: either a plain "nothing indexed" text or a
page — the header range `start`–`stop` of `total`, one button per row
(label, callback payload), and the nav buttons. -/
inductive MenuReply where
  | textOnly (text : String)
  | page (start stop total : Nat) (buttons : List (String × String))
      (nav : List (String × String))
deriving DecidableEq

/-- `showLessonsMenu` (index.js:408-503) with its page size 8: the scope is
the tapped conversation (`ctx.chat` for groups, `ctx.from` for private). -/
def showLessonsMenu (db : List VideoRow) (ums : List MembershipRow)
    (ctx : MenuCtx) (offset : Nat) : MenuReply :=
  if isGroupChat ctx.chatType then
    let chatId := ctx.chatId
    let total := countChatVideos db chatId
    if total = 0 then
      .textOnly "Bu guruhda indekslangan darslar topilmadi. Video tashlab, caption ga nom yozing."
    else
      let rows := listChatVideos db chatId 8 offset
      let kb := rows.map (fun r =>
        (trunc r.title 48, "L|" ++ r.chat_id ++ "|" ++ toString r.message_id))
      let nav :=
        (if 0 < offset then
          [("⬅️ Oldingi", "P|chat|" ++ chatId ++ "|" ++ toString (offset - 8))] else []) ++
        (if offset + 8 < total then
          [("Keyingi ➡️", "P|chat|" ++ chatId ++ "|" ++ toString (offset + 8))] else [])
      .page (offset + 1) (min (offset + 8) total) total kb nav
  else
    let userId := ctx.fromId
    let total := countUserVideos db ums userId
    if total = 0 then
      .textOnly "Siz bo‘lgan guruhlarda indekslangan darslar topilmadi."
    else
      let rows := listUserVideos db ums userId 8 offset
      let kb := rows.map (fun r =>
        (trunc ("[" ++ (r.chat_title.getD r.chat_id) ++ "] " ++ r.title) 48,
          "L|" ++ r.chat_id ++ "|" ++ toString r.message_id))
      let nav :=
        (if 0 < offset then
          [("⬅️ Oldingi", "P|user|" ++ userId ++ "|" ++ toString (offset - 8))] else []) ++
        (if offset + 8 < total then
          [("Keyingi ➡️", "P|user|" ++ userId ++ "|" ++ toString (offset + 8))] else [])
      .page (offset + 1) (min (offset + 8) total) total kb nav

/-- `data.split('|')` on character lists. -/
def splitPipe : List Char → List (List Char)
  | [] => [[]]
  | c :: rest =>
    if c = '|' then [] :: splitPipe rest
    else
      match splitPipe rest with
      | [] => [[c]]
      | g :: gs => (c :: g) :: gs

/-- `Number(s)` for the non-negative decimal numerals the menu emits
(`Number(parts[3] || 0)`; the empty string yields 0). -/
def natOfDigits (l : List Char) : Option Nat :=
  if l.all (fun c => decide ('0' ≤ c) && decide (c ≤ '9')) then
    some (l.foldl (fun acc c => acc * 10 + (c.toNat - 48)) 0)
  else none

/-- What the callback handler does with an activation (for a first-seen
activation id; the 30s `handledCallbacks` debounce set is orthogonal to the
claims and not modelled). -/
inductive CbAction where
  | forwardTo (targetId fromChat messageId : String)
  | menu (m : MenuReply)
  | ignored
deriving DecidableEq

/-- `bot.on('callback_query')` (index.js:509-547): the `L|` branch forwards
to the tapped conversation (or the tapping user in private); the `P|` branch
parses `parts[1]` (scope) and `parts[2]` (encoded id) but passes only the
offset `parts[3]` to `showLessonsMenu`, which takes its scope from `ctx`. -/
def handleCallback (db : List VideoRow) (ums : List MembershipRow)
    (ctx : MenuCtx) (data : String) : CbAction :=
  if startsB "L|".data data.data then
    let parts := splitPipe data.data
    let targetId := if ctx.chatType = .privateChat then ctx.fromId else ctx.chatId
    .forwardTo targetId (String.mk (parts.getD 1 [])) (String.mk (parts.getD 2 []))
  else if startsB "P|".data data.data then
    let parts := splitPipe data.data
    .menu (showLessonsMenu db ums ctx ((natOfDigits (parts.getD 3 [])).getD 0))
  else .ignored

/-! ## Claim C9: pagination ignores the encoded identifier -/

/-- **C9.** For every `P|…` pagination activation, the handler shows the menu
computed from the tapped conversation's own context and the payload's offset
field alone: the scope tag and the encoded identifier are parsed but unused,
so any two `P|` payloads with the same fourth field produce identical
replies. -/
theorem callback_pagination_scope (db : List VideoRow) (ums : List MembershipRow)
    (ctx : MenuCtx) (d : String)
    (hP : startsB "P|".data d.data = true)
    (hL : startsB "L|".data d.data = false) :
    handleCallback db ums ctx d =
      .menu (showLessonsMenu db ums ctx
        ((natOfDigits ((splitPipe d.data).getD 3 [])).getD 0)) ∧
    (∀ d' : String, startsB "P|".data d'.data = true →
      startsB "L|".data d'.data = false →
      (splitPipe d.data).getD 3 [] = (splitPipe d'.data).getD 3 [] →
      handleCallback db ums ctx d = handleCallback db ums ctx d') := by
  have heval : ∀ e : String, startsB "P|".data e.data = true →
      startsB "L|".data e.data = false →
      handleCallback db ums ctx e =
        .menu (showLessonsMenu db ums ctx
          ((natOfDigits ((splitPipe e.data).getD 3 [])).getD 0)) := by
    intro e hPe hLe
    unfold handleCallback
    rw [hLe, hPe]
    simp
  refine ⟨heval d hP hL, ?_⟩
  intro d' hP' hL' hoff
  rw [heval d hP hL, heval d' hP' hL', hoff]

/-- Witness for `callback_pagination_scope`: two payloads with different
scope tags and encoded ids but the same offset yield the same reply in the
same tapped group. -/
theorem callback_pagination_scope_witness :
    handleCallback [] [] ⟨.group, "g", "u"⟩ "P|chat|123|8" =
      handleCallback [] [] ⟨.group, "g", "u"⟩ "P|user|999|8" :=
  (callback_pagination_scope [] [] ⟨.group, "g", "u"⟩ "P|chat|123|8"
      (by decide) (by decide)).2 "P|user|999|8" (by decide) (by decide) (by decide)
